import Mathlib

/-!
Shallow embedding of `torch/csrc/inductor/aoti_torch/tensor_converter.cpp`.

The source file defines four functions in `torch::aot_inductor`:

* `tensor_handle_to_tensor_pointer` / `tensor_pointer_to_tensor_handle` —
  `reinterpret_cast` between the opaque `AtenTensorHandle` and `at::Tensor*`;
* `unsafe_alloc_new_handles_from_tensors(tensors, length)` — for each `i`,
  `new at::Tensor(std::move(tensors[i]))` and stores the resulting pointer
  (as a handle) into `result[i]`;
* `alloc_tensors_by_stealing_from_handles(handles, length)` — for each `i`,
  `result.emplace_back(std::move(*tensor_handle_to_tensor_pointer(handles[i])))`
  and then `handles[i] = nullptr`.

Embedding choices: addresses are natural numbers, `0` is the null pointer /
null handle; the heap of boxed tensors is an explicit map from addresses to
box contents together with a bump allocator whose `new` fails (C++
`std::bad_alloc`) once the bump pointer exceeds a fixed capacity; an
`at::Tensor` object is `Option α` — `some v` is a tensor holding payload `v`
and `none` is the empty shell that `at::Tensor`'s move constructor leaves
behind in the moved-from object.  The two bulk operations thread the heap
explicitly; dereferencing an address at which no box is allocated (the
undefined behaviour of the C++ code) is the `Option.none` outcome of the
reclamation function, and `std::bad_alloc` propagating out of the allocation
loop is the `Except.error` outcome, carrying the heap as it stands at the
throw so that the fate of already-allocated boxes is observable.
-/

namespace TensorConverter

variable {α : Type}

/-- An `at::Tensor` object as visible at the ABI boundary: `some v` holds the
payload `v`, `none` is the valid-but-empty shell left in a moved-from
`at::Tensor`. -/
abbrev Tensor (α : Type) := Option α

/-- An `AtenTensorHandle`: an opaque pointer-sized token; `0` is the null
handle. -/
abbrev AtenTensorHandle := Nat

/-- The C++ heap restricted to boxed `at::Tensor`s: `mem a` is the content of
the box allocated at address `a` (`Option.none` when no box lives there),
`next` is the next address `new` will hand out (addresses start at `1` or
above, so no box ever sits at the null address), and `capacity` is the last
address the allocator can hand out before `new` throws `std::bad_alloc`. -/
structure Heap (α : Type) where
  mem : Nat → Option (Tensor α)
  next : Nat
  capacity : Nat

/-- The heap after a successful `new`: the box at the bump address holds `t`
and the bump address moves up by one. -/
def Heap.insertNew (h : Heap α) (t : Tensor α) : Heap α :=
  ⟨fun a => if a = h.next then some t else h.mem a, h.next + 1, h.capacity⟩

/-- `new at::Tensor(t)`: returns the fresh address and the extended heap, or
`none` when the allocator is exhausted (`std::bad_alloc`). -/
def Heap.alloc (h : Heap α) (t : Tensor α) : Option (Nat × Heap α) :=
  if h.next ≤ h.capacity then some (h.next, h.insertNew t) else none

/-- Overwrite the box at address `p` (used for the moved-from shell a steal
leaves behind). -/
def Heap.write (h : Heap α) (p : Nat) (t : Option (Tensor α)) : Heap α :=
  ⟨fun a => if a = p then t else h.mem a, h.next, h.capacity⟩

/-- `tensor_handle_to_tensor_pointer`: `reinterpret_cast<at::Tensor*>(handle)`
— a pure reinterpretation of the bit pattern, here the identity on
addresses. -/
def tensor_handle_to_tensor_pointer (handle : AtenTensorHandle) : Nat :=
  handle

/-- `tensor_pointer_to_tensor_handle`:
`reinterpret_cast<AtenTensorHandle>(tensor)` — the inverse reinterpretation,
also the identity on addresses. -/
def tensor_pointer_to_tensor_handle (tensor : Nat) : AtenTensorHandle :=
  tensor

/-- Invocation of `tensor_handle_to_tensor_pointer` against the global heap:
the source body is a single `reinterpret_cast`, so the call returns the
reinterpreted argument and leaves the heap exactly as it received it. -/
def tensor_handle_to_tensor_pointer_invoke (handle : AtenTensorHandle)
    (st : Heap α) : Nat × Heap α :=
  (tensor_handle_to_tensor_pointer handle, st)

/-- Invocation of `tensor_pointer_to_tensor_handle` against the global heap:
as above, the heap is passed through untouched. -/
def tensor_pointer_to_tensor_handle_invoke (tensor : Nat)
    (st : Heap α) : AtenTensorHandle × Heap α :=
  (tensor_pointer_to_tensor_handle tensor, st)

/-- Embedding of `unsafe_alloc_new_handles_from_tensors(tensors, length)`.
The input array is the list `tensors` (its length plays the role of
`length`); the loop body `new at::Tensor(std::move(tensors[i]))` boxes the
moved tensor, leaving the `none` shell in the input slot, and
`result[i] = tensor_pointer_to_tensor_handle(allocated)` records the handle
positionally.  On success the result is the handle vector, the final state of
the input array, and the final heap; if a `new` throws, the error carries the
heap at the throw (no box allocated so far is freed). -/
def alloc_new_handles_from_tensors :
    List (Tensor α) → Heap α →
      Except (Heap α) (List AtenTensorHandle × List (Tensor α) × Heap α)
  | [], heap => .ok ([], [], heap)
  | t :: ts, heap =>
    match heap.alloc t with
    | none => .error heap
    | some (p, heap1) =>
      match alloc_new_handles_from_tensors ts heap1 with
      | .error heapF => .error heapF
      | .ok (hs, ts1, heap2) =>
        .ok (tensor_pointer_to_tensor_handle p :: hs, none :: ts1, heap2)

/-- Embedding of `alloc_tensors_by_stealing_from_handles(handles, length)`.
`handles` is the whole caller-visible handle array (it may be longer than
`length`); the loop processes slots `0 .. length - 1` in order, dereferencing
`tensor_handle_to_tensor_pointer(handles[i])`, moving the box's tensor into
`result[i]` (the box keeps the `none` moved-from shell) and then overwriting
the slot with `nullptr`.  Dereferencing an address with no live box — the
undefined behaviour of the C++ — yields `Option.none`, as does reading past
the end of the array.  On success the result is the stolen tensors, the final
state of the whole handle array, and the final heap. -/
def alloc_tensors_by_stealing_from_handles :
    List AtenTensorHandle → Nat → Heap α →
      Option (List (Tensor α) × List AtenTensorHandle × Heap α)
  | handles, 0, heap => some ([], handles, heap)
  | [], _ + 1, _ => none
  | h :: hs, n + 1, heap =>
    match heap.mem (tensor_handle_to_tensor_pointer h) with
    | none => none
    | some t =>
      match alloc_tensors_by_stealing_from_handles hs n
          (heap.write (tensor_handle_to_tensor_pointer h) (some none)) with
      | none => none
      | some (ts, hs1, heap1) => some (t :: ts, 0 :: hs1, heap1)

/-- A concrete empty heap over `Nat` payloads, used to instantiate the
conditional theorems on concrete inputs. -/
def demoHeap : Heap Nat :=
  ⟨fun _ => none, 1, 10⟩

/-- A concrete heap with live boxes at addresses `1` and `2`, holding the
tensors `some 3` and `some 4`. -/
def demoHeap2 : Heap Nat :=
  ⟨fun a => if a = 1 then some (some 3) else if a = 2 then some (some 4)
    else none, 3, 10⟩

/-- A concrete empty heap whose allocator can hand out exactly one address
before `new` fails. -/
def tinyHeap : Heap Nat :=
  ⟨fun _ => none, 1, 1⟩

@[simp] theorem Heap.insertNew_mem (h : Heap α) (t : Tensor α) (a : Nat) :
    (h.insertNew t).mem a = if a = h.next then some t else h.mem a := rfl

@[simp] theorem Heap.insertNew_next (h : Heap α) (t : Tensor α) :
    (h.insertNew t).next = h.next + 1 := rfl

@[simp] theorem Heap.insertNew_capacity (h : Heap α) (t : Tensor α) :
    (h.insertNew t).capacity = h.capacity := rfl

@[simp] theorem Heap.write_mem (h : Heap α) (p : Nat) (t : Option (Tensor α))
    (a : Nat) :
    (h.write p t).mem a = if a = p then t else h.mem a := rfl

@[simp] theorem Heap.write_next (h : Heap α) (p : Nat) (t : Option (Tensor α)) :
    (h.write p t).next = h.next := rfl

@[simp] theorem Heap.write_capacity (h : Heap α) (p : Nat)
    (t : Option (Tensor α)) :
    (h.write p t).capacity = h.capacity := rfl

/-- Bulk allocation, success case: the handles are the consecutive bump
addresses starting at `heap.next` in input order, every input slot is left as
a moved-from shell, the allocator advanced by the length of the input, boxes
below the old bump address are untouched, and the box behind the `i`-th
handle holds the `i`-th input tensor. -/
theorem alloc_ok_spec :
    ∀ (V : List (Tensor α)) (heap : Heap α) (H : List AtenTensorHandle)
      (V1 : List (Tensor α)) (heap1 : Heap α),
      alloc_new_handles_from_tensors V heap = .ok (H, V1, heap1) →
      H.length = V.length ∧
      V1 = List.replicate V.length (none : Tensor α) ∧
      heap1.next = heap.next + V.length ∧
      heap1.capacity = heap.capacity ∧
      (∀ i, i < V.length → H[i]? = some (heap.next + i)) ∧
      (∀ a, a < heap.next → heap1.mem a = heap.mem a) ∧
      (∀ i, i < V.length → heap1.mem (heap.next + i) = V[i]?) := by
  intro V
  induction V with
  | nil =>
    intro heap H V1 heap1 hok
    simp only [alloc_new_handles_from_tensors, Except.ok.injEq,
      Prod.mk.injEq] at hok
    obtain ⟨hH, hV1, hheap⟩ := hok
    subst hH; subst hV1; subst hheap
    simp
  | cons t ts ih =>
    intro heap H V1 heap1 hok
    simp only [alloc_new_handles_from_tensors] at hok
    split at hok
    · exact Except.noConfusion hok
    · rename_i p heapIns hA
      split at hok
      · exact Except.noConfusion hok
      · rename_i hs ts1 heap2 hB
        unfold Heap.alloc at hA
        split at hA
        · rename_i hle
          injection hA with hA1
          injection hA1 with hp hIns
          subst hp; subst hIns
          simp only [Except.ok.injEq, Prod.mk.injEq] at hok
          obtain ⟨hH, hV1, hheap⟩ := hok
          subst hH; subst hV1; subst hheap
          obtain ⟨ih1, ih2, ih3, ih4, ih5, ih6, ih7⟩ := ih _ _ _ _ hB
          simp only [Heap.insertNew_next, Heap.insertNew_capacity] at ih3 ih4
          refine ⟨?_, ?_, ?_, ?_, ?_, ?_, ?_⟩
          · simp [ih1]
          · simp [List.replicate_succ, ih2]
          · simp only [List.length_cons]
            omega
          · exact ih4
          · intro i hi
            cases i with
            | zero => simp [tensor_pointer_to_tensor_handle]
            | succ i =>
              simp only [List.getElem?_cons_succ]
              rw [ih5 i (by simpa using hi)]
              simp only [Heap.insertNew_next, Option.some.injEq]
              omega
          · intro a ha
            rw [ih6 a (by simp; omega)]
            simp only [Heap.insertNew_mem]
            rw [if_neg (by omega)]
          · intro i hi
            cases i with
            | zero =>
              rw [show heap.next + 0 = heap.next by omega]
              rw [ih6 heap.next (by simp)]
              simp
            | succ i =>
              rw [show heap.next + (i + 1) = (heap.insertNew t).next + i by
                simp; omega]
              rw [ih7 i (by simpa using hi)]
              simp
        · exact Option.noConfusion hA

/-- Reclaiming zero slots returns immediately with an empty vector and
touches nothing. -/
theorem steal_zero (handles : List AtenTensorHandle) (heap : Heap α) :
    alloc_tensors_by_stealing_from_handles handles 0 heap
        = some ([], handles, heap) := by
  cases handles <;> rfl

/-- Reclaiming from an empty array with a positive count reads past the end
of the array. -/
theorem steal_nil_succ (n : Nat) (heap : Heap α) :
    alloc_tensors_by_stealing_from_handles ([] : List AtenTensorHandle)
        (n + 1) heap = none := rfl

/-- Unfolding lemma: reclaiming `n + 1` slots dereferences the coerced head
handle, steals its box (leaving the moved-from shell), nulls the slot and
recurses on the tail. -/
theorem steal_cons_succ (h : AtenTensorHandle) (hs : List AtenTensorHandle)
    (n : Nat) (heap : Heap α) :
    alloc_tensors_by_stealing_from_handles (h :: hs) (n + 1) heap =
      match heap.mem (tensor_handle_to_tensor_pointer h) with
      | none => none
      | some t =>
        match alloc_tensors_by_stealing_from_handles hs n
            (heap.write (tensor_handle_to_tensor_pointer h) (some none)) with
        | none => none
        | some (ts, hs1, heap1) => some (t :: ts, 0 :: hs1, heap1) := rfl

/-- Bulk reclamation, success case, no precondition: the output has exactly
`N` tensors, the handle array keeps its length, the first `N` slots are
nulled, every slot at index `N` or beyond is untouched, the allocator state
is untouched, and no box outside the addresses named by the first `N`
handles is modified. -/
theorem steal_ok_facts :
    ∀ (N : Nat) (handles : List AtenTensorHandle) (heap : Heap α)
      (ts : List (Tensor α)) (hs1 : List AtenTensorHandle) (heap1 : Heap α),
      alloc_tensors_by_stealing_from_handles handles N heap
          = some (ts, hs1, heap1) →
      ts.length = N ∧ hs1.length = handles.length ∧ N ≤ handles.length ∧
      (∀ i, i < N → hs1[i]? = some 0) ∧
      (∀ i, N ≤ i → hs1[i]? = handles[i]?) ∧
      heap1.next = heap.next ∧ heap1.capacity = heap.capacity ∧
      (∀ a, (∀ i, i < N → handles[i]? ≠ some a) → heap1.mem a = heap.mem a) := by
  intro N
  induction N with
  | zero =>
    intro handles heap ts hs1 heap1 hok
    rw [steal_zero] at hok
    simp only [Option.some.injEq, Prod.mk.injEq] at hok
    obtain ⟨h1, h2, h3⟩ := hok
    subst h1; subst h2; subst h3
    simp
  | succ n ih =>
    intro handles heap ts hs1 heap1 hok
    cases handles with
    | nil =>
      rw [steal_nil_succ] at hok
      exact Option.noConfusion hok
    | cons h hs =>
      rw [steal_cons_succ] at hok
      simp only [tensor_handle_to_tensor_pointer] at hok
      split at hok
      · exact Option.noConfusion hok
      · rename_i t hmem
        split at hok
        · exact Option.noConfusion hok
        · rename_i ts2 hs2 heap2 hrec
          simp only [Option.some.injEq, Prod.mk.injEq] at hok
          obtain ⟨h1, h2, h3⟩ := hok
          subst h1; subst h2; subst h3
          obtain ⟨ih1, ih2, ih3, ih4, ih5, ih6, ih7, ih8⟩ := ih _ _ _ _ _ hrec
          refine ⟨by simp [ih1], by simp [ih2],
            by simp only [List.length_cons]; omega, ?_, ?_, ?_, ?_, ?_⟩
          · intro i hi
            cases i with
            | zero => simp
            | succ i =>
              simp only [List.getElem?_cons_succ]
              exact ih4 i (by omega)
          · intro i hi
            cases i with
            | zero => omega
            | succ i =>
              simp only [List.getElem?_cons_succ]
              exact ih5 i (by omega)
          · rw [ih6]; simp
          · rw [ih7]; simp
          · intro a ha
            have hne : a ≠ h := by
              intro hc
              exact ha 0 (by omega) (by simp [hc])
            rw [ih8 a (fun i hi hc => ha (i + 1) (by omega) (by simpa using hc))]
            simp [hne]

/-- Bulk reclamation succeeds whenever the first `N` slots exist and each
names a live box: the null-dereference outcome is unreachable. -/
theorem steal_isSome_of_live :
    ∀ (N : Nat) (handles : List AtenTensorHandle) (heap : Heap α),
      N ≤ handles.length →
      (∀ i, i < N → ∃ h c, handles[i]? = some h ∧ heap.mem h = some c) →
      (alloc_tensors_by_stealing_from_handles handles N heap).isSome := by
  intro N
  induction N with
  | zero =>
    intro handles heap _ _
    rw [steal_zero]
    rfl
  | succ n ih =>
    intro handles heap hlen hlive
    cases handles with
    | nil => simp at hlen
    | cons h hs =>
      obtain ⟨h0, c0, hh0, hm0⟩ := hlive 0 (by omega)
      simp only [List.getElem?_cons_zero, Option.some.injEq] at hh0
      subst hh0
      have hlive2 : ∀ i, i < n → ∃ x c, hs[i]? = some x ∧
          (heap.write h (some none)).mem x = some c := by
        intro i hi
        obtain ⟨x, cx, hhx, hmx⟩ := hlive (i + 1) (by omega)
        simp only [List.getElem?_cons_succ] at hhx
        by_cases hxe : x = h
        · exact ⟨x, none, hhx, by simp [hxe]⟩
        · exact ⟨x, cx, hhx, by simp [hxe, hmx]⟩
      have hrec := ih hs (heap.write h (some none)) (by simpa using hlen) hlive2
      obtain ⟨trip, htrip⟩ := Option.isSome_iff_exists.mp hrec
      obtain ⟨ts, hs1, heap1⟩ := trip
      rw [steal_cons_succ]
      simp only [tensor_handle_to_tensor_pointer]
      rw [hm0, htrip]
      rfl

/-- A successful bulk reclamation dereferenced, for every processed
position, the coerced handle of a box that was already live in the entry
heap: the read of slot `i` happened before any nulling of that slot. -/
theorem steal_ok_live_entry :
    ∀ (N : Nat) (handles : List AtenTensorHandle) (heap : Heap α)
      (ts : List (Tensor α)) (hs1 : List AtenTensorHandle) (heap1 : Heap α),
      alloc_tensors_by_stealing_from_handles handles N heap
          = some (ts, hs1, heap1) →
      ∀ i, i < N → ∃ x, handles[i]? = some x ∧
        (heap.mem (tensor_handle_to_tensor_pointer x)).isSome := by
  intro N
  induction N with
  | zero =>
    intro handles heap ts hs1 heap1 _ i hi
    omega
  | succ n ih =>
    intro handles heap ts hs1 heap1 hok i hi
    cases handles with
    | nil =>
      rw [steal_nil_succ] at hok
      exact Option.noConfusion hok
    | cons h hs =>
      rw [steal_cons_succ] at hok
      simp only [tensor_handle_to_tensor_pointer] at hok
      split at hok
      · exact Option.noConfusion hok
      · rename_i t hmem
        split at hok
        · exact Option.noConfusion hok
        · rename_i ts2 hs2 heap2 hrec
          cases i with
          | zero =>
            exact ⟨h, by simp, by
              simp [tensor_handle_to_tensor_pointer, hmem]⟩
          | succ i =>
            obtain ⟨x, hx, hxs⟩ := ih _ _ _ _ _ hrec i (by omega)
            refine ⟨x, by simpa using hx, ?_⟩
            simp only [tensor_handle_to_tensor_pointer] at hxs ⊢
            by_cases hxe : x = h
            · simp [hxe, hmem]
            · simpa [hxe] using hxs

/-- Bulk reclamation, success case, under the spec's exclusivity
precondition (first `N` slots live and pairwise distinct): the call
succeeds, the `i`-th output tensor is exactly the content the box behind the
`i`-th handle had on entry, and afterwards each of those boxes holds the
moved-from shell. -/
theorem steal_ok_values :
    ∀ (N : Nat) (handles : List AtenTensorHandle) (heap : Heap α),
      N ≤ handles.length →
      (∀ i j x y, i < N → j < N → i ≠ j →
        handles[i]? = some x → handles[j]? = some y → x ≠ y) →
      (∀ i, i < N → ∃ h c, handles[i]? = some h ∧ heap.mem h = some c) →
      ∃ ts hs1 heap1,
        alloc_tensors_by_stealing_from_handles handles N heap
            = some (ts, hs1, heap1) ∧
        (∀ i x, i < N → handles[i]? = some x → ts[i]? = heap.mem x) ∧
        (∀ i x, i < N → handles[i]? = some x → heap1.mem x = some none) := by
  intro N
  induction N with
  | zero =>
    intro handles heap _ _ _
    exact ⟨[], handles, heap, steal_zero handles heap,
      fun i x hi _ => absurd hi (by omega),
      fun i x hi _ => absurd hi (by omega)⟩
  | succ n ih =>
    intro handles heap hlen hnd hlive
    cases handles with
    | nil => simp at hlen
    | cons h hs =>
      obtain ⟨h0, c0, hh0, hm0⟩ := hlive 0 (by omega)
      simp only [List.getElem?_cons_zero, Option.some.injEq] at hh0
      subst hh0
      have hnd2 : ∀ i j x y, i < n → j < n → i ≠ j →
          hs[i]? = some x → hs[j]? = some y → x ≠ y := by
        intro i j x y hi hj hij hx hy
        exact hnd (i + 1) (j + 1) x y (by omega) (by omega) (by omega)
          (by simpa using hx) (by simpa using hy)
      have hne0 : ∀ i x, i < n → hs[i]? = some x → x ≠ h := by
        intro i x hi hx
        exact hnd (i + 1) 0 x h (by omega) (by omega) (by omega)
          (by simpa using hx) (by simp)
      have hlive2 : ∀ i, i < n → ∃ x c, hs[i]? = some x ∧
          (heap.write h (some none)).mem x = some c := by
        intro i hi
        obtain ⟨x, cx, hhx, hmx⟩ := hlive (i + 1) (by omega)
        simp only [List.getElem?_cons_succ] at hhx
        by_cases hxe : x = h
        · exact ⟨x, none, hhx, by simp [hxe]⟩
        · exact ⟨x, cx, hhx, by simp [hxe, hmx]⟩
      obtain ⟨ts, hs1, heap1, hsteal, hvals, hcons⟩ :=
        ih hs (heap.write h (some none)) (by simpa using hlen) hnd2 hlive2
      refine ⟨c0 :: ts, 0 :: hs1, heap1, ?_, ?_, ?_⟩
      · rw [steal_cons_succ]
        simp only [tensor_handle_to_tensor_pointer]
        rw [hm0, hsteal]
      · intro i x hi hx
        cases i with
        | zero =>
          simp only [List.getElem?_cons_zero, Option.some.injEq] at hx
          subst hx
          simp [hm0]
        | succ i =>
          simp only [List.getElem?_cons_succ] at hx ⊢
          rw [hvals i x (by omega) hx]
          have hne : x ≠ h := hne0 i x (by omega) hx
          simp [hne]
      · intro i x hi hx
        cases i with
        | zero =>
          simp only [List.getElem?_cons_zero, Option.some.injEq] at hx
          subst hx
          obtain ⟨-, -, -, -, -, -, -, hframe⟩ :=
            steal_ok_facts n hs (heap.write h (some none)) ts hs1 heap1 hsteal
          rw [hframe h (fun i hi hc => hne0 i h hi hc rfl)]
          simp
        | succ i =>
          simp only [List.getElem?_cons_succ] at hx
          exact hcons i x (by omega) hx

/-- Bulk allocation, failure case: a `std::bad_alloc` propagates out after
some `i < N` boxes were allocated; those `i` boxes still hold the first `i`
input tensors in the heap carried by the error (nothing has been freed — the
boxes are leaked), the allocator stands at `heap.next + i`, the failing
`i`-th allocation is precisely the one past the capacity, and no handle
vector is returned. -/
theorem alloc_error_spec :
    ∀ (V : List (Tensor α)) (heap : Heap α) (heapF : Heap α),
      alloc_new_handles_from_tensors V heap = .error heapF →
      ∃ i, i < V.length ∧
        heapF.next = heap.next + i ∧
        heap.capacity < heap.next + i ∧
        heapF.capacity = heap.capacity ∧
        (∀ a, a < heap.next → heapF.mem a = heap.mem a) ∧
        (∀ j, j < i → heapF.mem (heap.next + j) = V[j]?) := by
  intro V
  induction V with
  | nil =>
    intro heap heapF h
    simp only [alloc_new_handles_from_tensors] at h
    exact Except.noConfusion h
  | cons t ts ih =>
    intro heap heapF h
    simp only [alloc_new_handles_from_tensors] at h
    split at h
    · rename_i hA
      injection h with h1
      subst h1
      unfold Heap.alloc at hA
      split at hA
      · exact Option.noConfusion hA
      · rename_i hgt
        exact ⟨0, by simp, by omega, by omega, rfl, fun a _ => rfl,
          fun j hj => absurd hj (by omega)⟩
    · rename_i p heapIns hA
      split at h
      · rename_i heapF2 hB
        injection h with h1
        subst h1
        unfold Heap.alloc at hA
        split at hA
        · rename_i hle
          injection hA with hA1
          injection hA1 with hp hIns
          subst hp; subst hIns
          obtain ⟨i, hi1, hi2, hi3, hi4, hi5, hi6⟩ := ih _ _ hB
          refine ⟨i + 1, by simp only [List.length_cons]; omega, ?_, ?_, ?_,
            ?_, ?_⟩
          · simp only [Heap.insertNew_next] at hi2
            omega
          · simp only [Heap.insertNew_next, Heap.insertNew_capacity] at hi3
            omega
          · simpa using hi4
          · intro a ha
            rw [hi5 a (by simp only [Heap.insertNew_next]; omega)]
            simp only [Heap.insertNew_mem]
            rw [if_neg (by omega)]
          · intro j hj
            cases j with
            | zero =>
              rw [show heap.next + 0 = heap.next by omega]
              rw [hi5 heap.next (by simp only [Heap.insertNew_next]; omega)]
              simp
            | succ j =>
              rw [show heap.next + (j + 1) = (heap.insertNew t).next + j by
                simp only [Heap.insertNew_next]; omega]
              rw [hi6 j (by omega)]
              simp
        · exact Option.noConfusion hA
      · exact Except.noConfusion h

/-- C3: the two coercions are mutually inverse: coercing a pointer to a
handle and back returns the pointer, and coercing a handle to a pointer and
back returns the handle. -/
theorem claim_C3_coercions_mutually_inverse :
    (∀ p : Nat,
      tensor_handle_to_tensor_pointer (tensor_pointer_to_tensor_handle p) = p)
    ∧ (∀ h : AtenTensorHandle,
      tensor_pointer_to_tensor_handle (tensor_handle_to_tensor_pointer h) = h) :=
  ⟨fun _ => rfl, fun _ => rfl⟩

/-- C5: with `length = 0` both bulk operations return an empty output
sequence, leave the heap untouched (so no boxed-value allocation happens),
and leave the input array exactly as it was. -/
theorem claim_C5_zero_length (heap : Heap α) (handles : List AtenTensorHandle) :
    alloc_new_handles_from_tensors ([] : List (Tensor α)) heap
        = .ok ([], [], heap)
    ∧ alloc_tensors_by_stealing_from_handles handles 0 heap
        = some ([], handles, heap) :=
  ⟨rfl, by cases handles <;> rfl⟩

/-- C6: the coercions have no side effects: invoked against any heap they
return exactly their reinterpreted argument and the heap unchanged — no
allocation, no deallocation, no validation (they are total), no mutation. -/
theorem claim_C6_coercions_effect_free (x : Nat) (st : Heap α) :
    tensor_handle_to_tensor_pointer_invoke x st
        = (tensor_handle_to_tensor_pointer x, st)
    ∧ tensor_pointer_to_tensor_handle_invoke x st
        = (tensor_pointer_to_tensor_handle x, st)
    ∧ (tensor_handle_to_tensor_pointer_invoke x st).2.mem = st.mem
    ∧ (tensor_handle_to_tensor_pointer_invoke x st).2.next = st.next
    ∧ (tensor_pointer_to_tensor_handle_invoke x st).2.mem = st.mem
    ∧ (tensor_pointer_to_tensor_handle_invoke x st).2.next = st.next :=
  ⟨rfl, rfl, rfl, rfl, rfl, rfl⟩

/-- C1: bulk allocation followed by bulk reclamation is the identity: if
allocating handles for the tensors `V` succeeds with handle vector `H`, then
reclaiming `V.length` slots from `H` succeeds, yields tensors equal by value
to the original `V`, and leaves every slot of `H` null. -/
theorem claim_C1_roundtrip (V : List (Tensor α)) (heap : Heap α)
    (H : List AtenTensorHandle) (V1 : List (Tensor α)) (heap1 : Heap α)
    (halloc : alloc_new_handles_from_tensors V heap = .ok (H, V1, heap1)) :
    ∃ heap2,
      alloc_tensors_by_stealing_from_handles H V.length heap1
          = some (V, List.replicate V.length 0, heap2) := by
  obtain ⟨a1, a2, a3, a4, a5, a6, a7⟩ := alloc_ok_spec V heap H V1 heap1 halloc
  have hnd : ∀ i j x y, i < V.length → j < V.length → i ≠ j →
      H[i]? = some x → H[j]? = some y → x ≠ y := by
    intro i j x y hi hj hij hx hy
    rw [a5 i hi] at hx
    rw [a5 j hj] at hy
    injection hx with hx1
    injection hy with hy1
    subst hx1; subst hy1
    intro hc
    have hc2 : (heap.next + i : Nat) = heap.next + j := hc
    omega
  have hlive : ∀ i, i < V.length →
      ∃ x c, H[i]? = some x ∧ heap1.mem x = some c := by
    intro i hi
    exact ⟨heap.next + i, V[i], a5 i hi, by
      rw [a7 i hi]; exact List.getElem?_eq_getElem hi⟩
  obtain ⟨ts, hs1, heap2, hsteal, hvals, hcons⟩ :=
    steal_ok_values V.length H heap1 (by omega) hnd hlive
  obtain ⟨f1, f2, -, f4, -, -, -, -⟩ :=
    steal_ok_facts V.length H heap1 ts hs1 heap2 hsteal
  have hts : ts = V := by
    apply List.ext_getElem?
    intro n
    by_cases hn : n < V.length
    · rw [hvals n (heap.next + n) hn (a5 n hn), a7 n hn]
    · rw [List.getElem?_eq_none (by omega), List.getElem?_eq_none (by omega)]
  have hhs : hs1 = List.replicate V.length 0 := by
    apply List.ext_getElem?
    intro n
    by_cases hn : n < V.length
    · rw [f4 n hn, List.getElem?_replicate_of_lt hn]
    · rw [List.getElem?_eq_none (by omega),
        List.getElem?_eq_none (by simp only [List.length_replicate]; omega)]
  exact ⟨heap2, by rw [hsteal, hts, hhs]⟩

/-- Witness for C1 on two concrete tensors. -/
theorem claim_C1_witness :
    ∃ (H : List AtenTensorHandle) (V1 : List (Tensor Nat)) (heap1 : Heap Nat),
      alloc_new_handles_from_tensors [some 5, some 7] demoHeap
          = .ok (H, V1, heap1) ∧
      ∃ heap2,
        alloc_tensors_by_stealing_from_handles H 2 heap1
            = some ([some 5, some 7], List.replicate 2 0, heap2) := by
  refine ⟨_, _, _, rfl, ?_⟩
  exact claim_C1_roundtrip [some 5, some 7] demoHeap _ _ _ rfl

/-- C2: positional correspondence for both bulk operations: allocation
returns exactly one handle per input, the `i`-th handle is the coerced
pointer to a fresh box whose content is input `i`; reclamation (under the
exclusive-ownership precondition) returns exactly `N` tensors, the `i`-th
being the content of the box behind the coerced `i`-th input handle — no
reordering in either direction. -/
theorem claim_C2_positional :
    (∀ (V : List (Tensor α)) (heap : Heap α) (H : List AtenTensorHandle)
      (V1 : List (Tensor α)) (heap1 : Heap α),
      alloc_new_handles_from_tensors V heap = .ok (H, V1, heap1) →
      H.length = V.length ∧
      ∀ i, i < V.length →
        ∃ p, H[i]? = some (tensor_pointer_to_tensor_handle p) ∧
          heap.next ≤ p ∧ heap1.mem p = V[i]?)
    ∧ (∀ (handles : List AtenTensorHandle) (N : Nat) (heap : Heap α),
      N ≤ handles.length →
      (∀ i j x y, i < N → j < N → i ≠ j →
        handles[i]? = some x → handles[j]? = some y → x ≠ y) →
      (∀ i, i < N → ∃ x c, handles[i]? = some x ∧ heap.mem x = some c) →
      ∃ ts hs1 heap1,
        alloc_tensors_by_stealing_from_handles handles N heap
            = some (ts, hs1, heap1) ∧
        ts.length = N ∧
        ∀ i x, i < N → handles[i]? = some x →
          ts[i]? = heap.mem (tensor_handle_to_tensor_pointer x)) := by
  constructor
  · intro V heap H V1 heap1 halloc
    obtain ⟨a1, -, -, -, a5, -, a7⟩ := alloc_ok_spec V heap H V1 heap1 halloc
    refine ⟨a1, ?_⟩
    intro i hi
    exact ⟨heap.next + i, a5 i hi, by omega, a7 i hi⟩
  · intro handles N heap hlen hnd hlive
    obtain ⟨ts, hs1, heap1, hsteal, hvals, -⟩ :=
      steal_ok_values N handles heap hlen hnd hlive
    obtain ⟨f1, -, -, -, -, -, -, -⟩ :=
      steal_ok_facts N handles heap ts hs1 heap1 hsteal
    exact ⟨ts, hs1, heap1, hsteal, f1, hvals⟩

/-- Witness for C2: both directions instantiated on concrete two-element
inputs. -/
theorem claim_C2_witness :
    (∃ (H : List AtenTensorHandle) (V1 : List (Tensor Nat)) (heap1 : Heap Nat),
      alloc_new_handles_from_tensors [some 3, some 4] demoHeap
          = .ok (H, V1, heap1) ∧
      H.length = 2 ∧
      (∀ i, i < 2 →
        ∃ p, H[i]? = some (tensor_pointer_to_tensor_handle p) ∧
          demoHeap.next ≤ p ∧ heap1.mem p = [some 3, some 4][i]?))
    ∧ (∃ (ts : List (Tensor Nat)) (hs1 : List AtenTensorHandle)
        (heap1 : Heap Nat),
      alloc_tensors_by_stealing_from_handles [1, 2] 2 demoHeap2
          = some (ts, hs1, heap1) ∧
      ts.length = 2 ∧
      (∀ i x, i < 2 → [1, 2][i]? = some x →
        ts[i]? = demoHeap2.mem (tensor_handle_to_tensor_pointer x))) := by
  constructor
  · obtain ⟨hlen, hpos⟩ :=
      claim_C2_positional.1 [some 3, some 4] demoHeap _ _ _ rfl
    exact ⟨_, _, _, rfl, hlen, hpos⟩
  · have hnd : ∀ i j x y, i < 2 → j < 2 → i ≠ j →
        ([1, 2] : List AtenTensorHandle)[i]? = some x →
        ([1, 2] : List AtenTensorHandle)[j]? = some y → x ≠ y := by
      intro i j x y hi hj hij hx hy
      interval_cases i <;> interval_cases j <;>
        simp only [List.getElem?_cons_zero, List.getElem?_cons_succ,
          Option.some.injEq] at hx hy <;>
        first
          | exact absurd rfl hij
          | (subst hx; subst hy; decide)
    have hlive : ∀ i, i < 2 → ∃ x c,
        ([1, 2] : List AtenTensorHandle)[i]? = some x ∧
        demoHeap2.mem x = some c := by
      intro i hi
      interval_cases i
      · exact ⟨1, some 3, rfl, rfl⟩
      · exact ⟨2, some 4, rfl, rfl⟩
    obtain ⟨ts, hs1, heap1, hsteal, hlen, hvals⟩ :=
      claim_C2_positional.2 [1, 2] 2 demoHeap2 (by decide) hnd hlive
    exact ⟨ts, hs1, heap1, hsteal, hlen, hvals⟩

/-- C4: a successful bulk reclamation produced exactly `N` tensors, kept the
array length, for each processed position dereferenced the coerced handle of
a box live in the entry heap (the read happens before the slot is
overwritten), and afterwards every one of the first `N` slots is null. -/
theorem claim_C4_in_order_nulling (handles : List AtenTensorHandle) (N : Nat)
    (heap : Heap α) (ts : List (Tensor α)) (hs1 : List AtenTensorHandle)
    (heap1 : Heap α)
    (hok : alloc_tensors_by_stealing_from_handles handles N heap
        = some (ts, hs1, heap1)) :
    ts.length = N ∧ hs1.length = handles.length ∧
    (∀ i, i < N → ∃ x, handles[i]? = some x ∧
      (heap.mem (tensor_handle_to_tensor_pointer x)).isSome) ∧
    (∀ i, i < N → hs1[i]? = some 0) := by
  obtain ⟨f1, f2, -, f4, -, -, -, -⟩ :=
    steal_ok_facts N handles heap ts hs1 heap1 hok
  exact ⟨f1, f2, steal_ok_live_entry N handles heap ts hs1 heap1 hok, f4⟩

/-- Witness for C4 on a concrete three-slot array with two reclaimed
slots. -/
theorem claim_C4_witness :
    ∃ (ts : List (Tensor Nat)) (hs1 : List AtenTensorHandle)
      (heap1 : Heap Nat),
      alloc_tensors_by_stealing_from_handles [1, 2, 7] 2 demoHeap2
          = some (ts, hs1, heap1) ∧
      ts.length = 2 ∧ hs1.length = 3 ∧
      (∀ i, i < 2 → ∃ x, ([1, 2, 7] : List AtenTensorHandle)[i]? = some x ∧
        (demoHeap2.mem (tensor_handle_to_tensor_pointer x)).isSome) ∧
      (∀ i, i < 2 → hs1[i]? = some 0) := by
  refine ⟨_, _, _, rfl, ?_⟩
  exact claim_C4_in_order_nulling [1, 2, 7] 2 demoHeap2 _ _ _ rfl

/-- C7: when a `new` fails during bulk allocation, the whole call propagates
the out-of-memory failure and returns no handle vector at all; the failure
happened at some position `i < N` whose allocation exceeded the capacity,
and the `i` boxes already allocated are still present in the heap at the
throw, holding the first `i` input tensors — leaked, not rolled back. -/
theorem claim_C7_oom_leaks (V : List (Tensor α)) (heap heapF : Heap α)
    (herr : alloc_new_handles_from_tensors V heap = .error heapF) :
    ∃ i, i < V.length ∧
      heap.capacity < heap.next + i ∧
      heapF.next = heap.next + i ∧
      (∀ a, a < heap.next → heapF.mem a = heap.mem a) ∧
      (∀ j, j < i → heapF.mem (heap.next + j) = V[j]?) := by
  obtain ⟨i, h1, h2, h3, h4, h5, h6⟩ := alloc_error_spec V heap heapF herr
  exact ⟨i, h1, h3, h2, h5, h6⟩

/-- Witness for C7: a two-tensor allocation against a one-slot allocator
fails on the second element and leaks the first box. -/
theorem claim_C7_witness :
    ∃ heapF,
      alloc_new_handles_from_tensors [some 1, some 2] tinyHeap
          = .error heapF ∧
      ∃ i, i < 2 ∧
        tinyHeap.capacity < tinyHeap.next + i ∧
        heapF.next = tinyHeap.next + i ∧
        (∀ a, a < tinyHeap.next → heapF.mem a = tinyHeap.mem a) ∧
        (∀ j, j < i → heapF.mem (tinyHeap.next + j) = [some 1, some 2][j]?) := by
  refine ⟨_, rfl, ?_⟩
  exact claim_C7_oom_leaks [some 1, some 2] tinyHeap _ rfl

/-- C8: the handles returned by a successful bulk allocation are all
non-null and pairwise distinct (the allocator starts at a positive
address). -/
theorem claim_C8_nonnull_distinct (V : List (Tensor α)) (heap : Heap α)
    (H : List AtenTensorHandle) (V1 : List (Tensor α)) (heap1 : Heap α)
    (hpos : 1 ≤ heap.next)
    (halloc : alloc_new_handles_from_tensors V heap = .ok (H, V1, heap1)) :
    H.length = V.length ∧
    (∀ i x, i < V.length → H[i]? = some x → x ≠ 0) ∧
    (∀ i j x y, i < V.length → j < V.length → i ≠ j →
      H[i]? = some x → H[j]? = some y → x ≠ y) := by
  obtain ⟨a1, -, -, -, a5, -, -⟩ := alloc_ok_spec V heap H V1 heap1 halloc
  refine ⟨a1, ?_, ?_⟩
  · intro i x hi hx
    rw [a5 i hi] at hx
    injection hx with hx1
    subst hx1
    intro hc
    have hc2 : (heap.next + i : Nat) = 0 := hc
    omega
  · intro i j x y hi hj hij hx hy
    rw [a5 i hi] at hx
    rw [a5 j hj] at hy
    injection hx with hx1
    injection hy with hy1
    subst hx1; subst hy1
    intro hc
    have hc2 : (heap.next + i : Nat) = heap.next + j := hc
    omega

/-- Witness for C8: three concrete input tensors give three non-null,
pairwise distinct handles. -/
theorem claim_C8_witness :
    ∃ (H : List AtenTensorHandle) (V1 : List (Tensor Nat)) (heap1 : Heap Nat),
      alloc_new_handles_from_tensors [some 1, some 2, some 3] demoHeap
          = .ok (H, V1, heap1) ∧
      H.length = 3 ∧
      (∀ i x, i < 3 → H[i]? = some x → x ≠ 0) ∧
      (∀ i j x y, i < 3 → j < 3 → i ≠ j →
        H[i]? = some x → H[j]? = some y → x ≠ y) := by
  refine ⟨_, _, _, rfl, ?_⟩
  exact claim_C8_nonnull_distinct [some 1, some 2, some 3] demoHeap _ _ _
    (by decide) rfl

/-- C9: under the precondition that the first `N` slots exist, are non-null
and each names a live box, bulk reclamation succeeds — the embedding's
null-dereference branch is unreachable in every iteration. -/
theorem claim_C9_no_null_deref (handles : List AtenTensorHandle) (N : Nat)
    (heap : Heap α)
    (hlen : N ≤ handles.length)
    (hlive : ∀ i, i < N → ∃ x c, handles[i]? = some x ∧ x ≠ 0 ∧
      heap.mem x = some c) :
    (alloc_tensors_by_stealing_from_handles handles N heap).isSome := by
  apply steal_isSome_of_live N handles heap hlen
  intro i hi
  obtain ⟨x, c, hx, -, hm⟩ := hlive i hi
  exact ⟨x, c, hx, hm⟩

/-- Witness for C9 on a concrete heap with two live boxes. -/
theorem claim_C9_witness :
    (alloc_tensors_by_stealing_from_handles [1, 2] 2 demoHeap2).isSome := by
  apply claim_C9_no_null_deref [1, 2] 2 demoHeap2 (by decide)
  intro i hi
  interval_cases i
  · exact ⟨1, some 3, rfl, by decide, rfl⟩
  · exact ⟨2, some 4, rfl, by decide, rfl⟩

/-- C10: a successful bulk reclamation writes only to the first `N` slots of
the handle array: the array keeps its length, every slot at index `N` or
beyond is unchanged, the allocator state is unchanged, and every box whose
address is not named by one of the first `N` handles is unchanged. -/
theorem claim_C10_writes_only_first_N (handles : List AtenTensorHandle)
    (N : Nat) (heap : Heap α) (ts : List (Tensor α))
    (hs1 : List AtenTensorHandle) (heap1 : Heap α)
    (hok : alloc_tensors_by_stealing_from_handles handles N heap
        = some (ts, hs1, heap1)) :
    hs1.length = handles.length ∧
    (∀ i, N ≤ i → hs1[i]? = handles[i]?) ∧
    heap1.next = heap.next ∧ heap1.capacity = heap.capacity ∧
    (∀ a, (∀ i, i < N → handles[i]? ≠ some a) →
      heap1.mem a = heap.mem a) := by
  obtain ⟨-, f2, -, -, f5, f6, f7, f8⟩ :=
    steal_ok_facts N handles heap ts hs1 heap1 hok
  exact ⟨f2, f5, f6, f7, f8⟩

/-- Witness for C10: reclaiming two of three slots leaves the third slot and
all unrelated boxes untouched. -/
theorem claim_C10_witness :
    ∃ (ts : List (Tensor Nat)) (hs1 : List AtenTensorHandle)
      (heap1 : Heap Nat),
      alloc_tensors_by_stealing_from_handles [1, 2, 7] 2 demoHeap2
          = some (ts, hs1, heap1) ∧
      hs1.length = 3 ∧
      (∀ i, 2 ≤ i → hs1[i]? = ([1, 2, 7] : List AtenTensorHandle)[i]?) ∧
      heap1.next = demoHeap2.next ∧ heap1.capacity = demoHeap2.capacity ∧
      (∀ a, (∀ i, i < 2 → ([1, 2, 7] : List AtenTensorHandle)[i]? ≠ some a) →
        heap1.mem a = demoHeap2.mem a) := by
  refine ⟨_, _, _, rfl, ?_⟩
  exact claim_C10_writes_only_first_N [1, 2, 7] 2 demoHeap2 _ _ _ rfl

end TensorConverter
